import Mathlib

/-!
Verification of the eui-no-std repository: EUI-48 / EUI-64 identifier types
(`src/lib.rs`) and their serde string deserializers (`src/de.rs`).

Modelling conventions:
* Rust `u8` / `u64` values are `Nat` with explicit `&&& 0xff` masks and
  `>>>` / `<<<` shifts exactly where the source has them; byte arrays are
  `List Nat` whose well-formedness (`length`, `< 256`) restates what the
  Rust types `[u8; 6]` / `[u8; 8]` guarantee.
* Rust strings are modelled as their character lists.
* Fallible operations (`Vec::push().unwrap()`, serde visitors) return
  `Option` / `Except`.
* The core parser `string_to_eui` and its error type `StringToEuiError`
  are referenced by `src/de.rs` but their source file is not part of the
  tree; they are modelled from the specification (§4.1, §4.2), marked
  `Modelled from the spec:` below.
-/

deriving instance DecidableEq for Except

namespace EuiNoStd

/-- The lowercase hex alphabet `HEX_CHARS: &[u8] = b"0123456789abcdef"`
from `src/lib.rs`, as ASCII byte values. -/
def HEX_CHARS : List Nat :=
  [48, 49, 50, 51, 52, 53, 54, 55, 56, 57, 97, 98, 99, 100, 101, 102]

/-- Rust `pub struct Eui48([u8; 6])` from `src/lib.rs`; the byte array is a list
of naturals. -/
structure Eui48 where
  data : List Nat
deriving DecidableEq

/-- Rust `pub struct Eui64([u8; 8])` from `src/lib.rs`. -/
structure Eui64 where
  data : List Nat
deriving DecidableEq

/-- What the Rust type `[u8; 6]` guarantees about the wrapped array. -/
def Eui48.WF (e : Eui48) : Prop :=
  e.data.length = 6 ∧ ∀ b ∈ e.data, b < 256

/-- What the Rust type `[u8; 8]` guarantees about the wrapped array. -/
def Eui64.WF (e : Eui64) : Prop :=
  e.data.length = 8 ∧ ∀ b ∈ e.data, b < 256

instance (e : Eui48) : Decidable e.WF := by unfold Eui48.WF; infer_instance

instance (e : Eui64) : Decidable e.WF := by unfold Eui64.WF; infer_instance

/-- Rust `heapless::Vec::push` on a vector of capacity `cap`: appends when below
capacity, fails otherwise. -/
def vec_push (cap : Nat) (vec : List Nat) (b : Nat) : Option (List Nat) :=
  if vec.length < cap then some (vec ++ [b]) else none

/-- The loop of the `to_hex_string!` macro in `src/lib.rs`: for each byte,
push the hex character of the high nibble then of the low nibble; the
`unwrap()` on a failed push (a panic in Rust) is modelled by `none`. -/
def to_hex_loop (cap : Nat) (vec : List Nat) : List Nat → Option (List Nat)
  | [] => some vec
  | byte :: rest =>
    match vec_push cap vec (HEX_CHARS.getD (byte >>> 4) 0) with
    | none => none
    | some v1 =>
      match vec_push cap v1 (HEX_CHARS.getD (byte &&& 0xf) 0) with
      | none => none
      | some v2 => to_hex_loop cap v2 rest

/-- Macro `to_hex_string!($eui, $size)` from `src/lib.rs`, starting from the empty
vector `Vec::<u8, $size>::new()`. -/
def to_hex_vec (cap : Nat) (data : List Nat) : Option (List Nat) :=
  to_hex_loop cap [] data

/-- Rust `Eui48::to_string` from `src/lib.rs`: `to_hex_string!(self, U12)`; the
final `String::from_utf8_unchecked` turns the ASCII bytes into characters. -/
def Eui48.to_string (e : Eui48) : Option (List Char) :=
  (to_hex_vec 12 e.data).map (fun v => v.map Char.ofNat)

/-- Rust `Eui64::to_string` from `src/lib.rs`: `to_hex_string!(self, U16)`. -/
def Eui64.to_string (e : Eui64) : Option (List Char) :=
  (to_hex_vec 16 e.data).map (fun v => v.map Char.ofNat)

/-- Rust `impl From<u64> for Eui48` (src/lib.rs lines 60-71): the six bytes
`(value >> k) & 0xff` for `k = 40, 32, 24, 16, 8, 0`. -/
def eui48_from_u64 (value : Nat) : Eui48 :=
  ⟨[value >>> 40 &&& 0xff, value >>> 32 &&& 0xff, value >>> 24 &&& 0xff,
    value >>> 16 &&& 0xff, value >>> 8 &&& 0xff, value &&& 0xff]⟩

/-- Rust `impl From<u64> for Eui64` (src/lib.rs lines 73-77):
`value.to_be_bytes()`. -/
def eui64_from_u64 (value : Nat) : Eui64 :=
  ⟨[value >>> 56 &&& 0xff, value >>> 48 &&& 0xff, value >>> 40 &&& 0xff,
    value >>> 32 &&& 0xff, value >>> 24 &&& 0xff, value >>> 16 &&& 0xff,
    value >>> 8 &&& 0xff, value &&& 0xff]⟩

/-- Rust `impl From<Eui48> for Eui64` (src/lib.rs lines 79-93): start from
`[0u8; 8]` and for `i` in `0..6` set `data[i]` (when `i < 3`) or
`data[i + 2]` (otherwise) to `eui48.0[i]`. -/
def eui64_from_eui48 (eui48 : Eui48) : Eui64 :=
  ⟨(List.range 6).foldl
    (fun data i =>
      if i < 3 then data.set i (eui48.data.getD i 0)
      else data.set (i + 2) (eui48.data.getD i 0))
    (List.replicate 8 0)⟩

/-- Rust `impl From<Eui48> for u64` (src/lib.rs lines 95-106): the sum of the six
bytes shifted into big-endian position. -/
def u64_from_eui48 (eui48 : Eui48) : Nat :=
  (eui48.data.getD 0 0) <<< 40 + (eui48.data.getD 1 0) <<< 32 +
    (eui48.data.getD 2 0) <<< 24 + (eui48.data.getD 3 0) <<< 16 +
    (eui48.data.getD 4 0) <<< 8 + (eui48.data.getD 5 0) <<< 0

/-- Rust `impl From<Eui64> for u64` (src/lib.rs lines 108-112):
`u64::from_be_bytes(eui64.0)`. -/
def u64_from_eui64 (eui64 : Eui64) : Nat :=
  eui64.data.foldl (fun acc b => acc * 256 + b) 0

/-- Modelled from the spec: the error type `StringToEuiError` of the core
parser (spec §4.2); its Rust source is referenced by `src/de.rs` but is not
part of the given tree. -/
inductive StringToEuiError where
  | InvalidLength (length : Nat)
  | InvalidChar (char : Char)
  | InvalidSeparatorPlace
  | OnlyOneSeparatorTypeExpected
deriving DecidableEq

/-- Modelled from the spec: `hex_char_to_nibble` (spec §4.1) — case
insensitive, accepts `0`-`9`, `a`-`f`, `A`-`F`, fails on anything else. -/
def hex_char_to_nibble (c : Char) : Option Nat :=
  if '0' ≤ c ∧ c ≤ '9' then some (c.toNat - 48)
  else if 'a' ≤ c ∧ c ≤ 'f' then some (c.toNat - 87)
  else if 'A' ≤ c ∧ c ≤ 'F' then some (c.toNat - 55)
  else none

/-- Modelled from the spec: the two recognized separator characters
(spec §3): colon and hyphen. -/
def is_separator (c : Char) : Bool := c = ':' || c = '-'

/-- Modelled from the spec: the state of the parser's single left-to-right
pass (spec §4.2) — the bytes written so far (the filled prefix of the
output buffer), the high nibble of a half-completed pair, the established
separator kind (initialized to none), and the number of hex characters
seen since the last separator. -/
structure ParserState where
  out : List Nat
  hi : Option Nat
  sep : Option Char
  since_sep : Nat
deriving DecidableEq

/-- Modelled from the spec: the single left-to-right pass of the core parser
(spec §4.2). On a separator, the kind is checked first (first one
establishes the kind, a differing later one fails with
`OnlyOneSeparatorTypeExpected`) and then its place: a separator is legal
only right after a completed pair of hex characters, i.e. with exactly two
hex characters seen since the previous separator, otherwise
`InvalidSeparatorPlace` (spec §4.2 step 3). A character that is neither a
hex digit nor a separator fails with `InvalidChar` (spec §4.2 step 2).
Every completed pair is decoded into the next output byte; completing a
pair with the buffer already full, or ending the input with the buffer not
exactly full or with a dangling nibble, fails with `InvalidLength` carrying
the total input length `total` — the total input length, not the
byte-buffer progress (spec §4.2; this matches the
`test_eui48_deserialize_invalid_length` case of length 17 in src/de.rs,
which expects `invalid length 17` for an unseparated 17-character input). -/
def string_to_eui_loop (total n : Nat) :
    ParserState → List Char → Except StringToEuiError (List Nat)
  | st, [] =>
    if st.out.length = n ∧ st.hi = none then .ok st.out
    else .error (.InvalidLength total)
  | st, c :: rest =>
    if is_separator c then
      match st.sep with
      | none =>
        if st.since_sep = 2 then
          string_to_eui_loop total n { st with sep := some c, since_sep := 0 } rest
        else .error .InvalidSeparatorPlace
      | some s =>
        if c = s then
          if st.since_sep = 2 then
            string_to_eui_loop total n { st with since_sep := 0 } rest
          else .error .InvalidSeparatorPlace
        else .error .OnlyOneSeparatorTypeExpected
    else
      match hex_char_to_nibble c with
      | none => .error (.InvalidChar c)
      | some nib =>
        match st.hi with
        | none =>
          string_to_eui_loop total n
            { st with hi := some nib, since_sep := st.since_sep + 1 } rest
        | some h =>
          if st.out.length < n then
            string_to_eui_loop total n
              { st with out := st.out ++ [16 * h + nib], hi := none,
                        since_sep := st.since_sep + 1 } rest
          else .error (.InvalidLength total)

/-- Modelled from the spec: `string_to_eui(string, result)`, the core parser
(spec §4.2). The expected lengths are exactly `2N` (bare) or `3N - 1`
(separated), checked up front; any other length fails with `InvalidLength`
carrying the total input length. The output buffer of length `n` is
modelled by the returned byte list. -/
def string_to_eui (v : List Char) (n : Nat) : Except StringToEuiError (List Nat) :=
  if v.length ≠ 2 * n ∧ v.length ≠ 3 * n - 1 then .error (.InvalidLength v.length)
  else string_to_eui_loop v.length n ⟨[], none, none, 0⟩ v

/-- The four error categories the visitors in `src/de.rs` surface to serde
(`invalid_length`, `invalid_value` with the character, and the two custom
separator messages). -/
inductive DeError where
  | invalidLength (length : Nat)
  | invalidChar (char : Char)
  | invalidSeparatorPlace
  | onlyOneSeparatorTypeExpected
deriving DecidableEq

/-- Rust `Eui48Visitor::visit_str` from `src/de.rs` lines 21-48; the `&str` input
is modelled as its character list. -/
def eui48_visit_str (v : List Char) : Except DeError Eui48 :=
  if v.length ≠ 12 ∧ v.length ≠ 17 then .error (.invalidLength v.length)
  else
    match string_to_eui v 6 with
    | .error (.InvalidLength length) => .error (.invalidLength length)
    | .error (.InvalidChar char) => .error (.invalidChar char)
    | .error .InvalidSeparatorPlace => .error .invalidSeparatorPlace
    | .error .OnlyOneSeparatorTypeExpected => .error .onlyOneSeparatorTypeExpected
    | .ok result => .ok ⟨result⟩

/-- Rust `Eui64Visitor::visit_str` from `src/de.rs` lines 62-89. -/
def eui64_visit_str (v : List Char) : Except DeError Eui64 :=
  if v.length ≠ 16 ∧ v.length ≠ 23 then .error (.invalidLength v.length)
  else
    match string_to_eui v 8 with
    | .error (.InvalidLength length) => .error (.invalidLength length)
    | .error (.InvalidChar char) => .error (.invalidChar char)
    | .error .InvalidSeparatorPlace => .error .invalidSeparatorPlace
    | .error .OnlyOneSeparatorTypeExpected => .error .onlyOneSeparatorTypeExpected
    | .ok result => .ok ⟨result⟩

/-- Spec-side helper: the hex byte rendering of a byte sequence — high
nibble then low nibble through `HEX_CHARS` — used to state what the
formatter produces. -/
def hex_bytes : List Nat → List Nat
  | [] => []
  | b :: rest =>
    HEX_CHARS.getD (b >>> 4) 0 :: HEX_CHARS.getD (b &&& 0xf) 0 :: hex_bytes rest

/-- Spec-side helper: `hex_bytes` as characters. -/
def hex_chars (l : List Nat) : List Char := (hex_bytes l).map Char.ofNat

/-- Spec-side helper: the separated rendering of a byte sequence — hex pairs
joined by the separator `s` (spec §4.2: N pairs joined by N-1 separators). -/
def sep_format (s : Char) : List Nat → List Char
  | [] => []
  | [b] => [Char.ofNat (HEX_CHARS.getD (b >>> 4) 0), Char.ofNat (HEX_CHARS.getD (b &&& 0xf) 0)]
  | b :: rest =>
    Char.ofNat (HEX_CHARS.getD (b >>> 4) 0) :: Char.ofNat (HEX_CHARS.getD (b &&& 0xf) 0) ::
      s :: sep_format s rest

/-- Spec-side helper: `c` and `c'` are equal or differ only in the case of
a hex letter (`a`-`f` versus `A`-`F`). -/
def case_variants (c c' : Char) : Bool :=
  c = c' ||
    ((c = 'a' && c' = 'A') || ((c = 'A' && c' = 'a') ||
    ((c = 'b' && c' = 'B') || ((c = 'B' && c' = 'b') ||
    ((c = 'c' && c' = 'C') || ((c = 'C' && c' = 'c') ||
    ((c = 'd' && c' = 'D') || ((c = 'D' && c' = 'd') ||
    ((c = 'e' && c' = 'E') || ((c = 'E' && c' = 'e') ||
    ((c = 'f' && c' = 'F') || (c = 'F' && c' = 'f'))))))))))))

/-- Spec-side helper: two strings differ at most in the case of their hex
digits, position by position. -/
def case_variants_list : List Char → List Char → Bool
  | [], [] => true
  | c :: v, c' :: w => case_variants c c' && case_variants_list v w
  | _, _ => false

end EuiNoStd

namespace EuiNoStd

/-- Masking with `0xff` is reduction modulo 256. -/
theorem and_255_eq_mod (v : Nat) : v &&& 0xff = v % 256 := by
  have h := Nat.and_pow_two_sub_one_eq_mod v 8
  norm_num at h
  exact h

/-- Claim C1: widening an `Eui48` to an `Eui64` copies bytes 0-2 unchanged,
places `0x00` at positions 3 and 4, and copies source bytes 3-5 to
positions 5-7. -/
theorem eui48_widening (e : Eui48) (h : e.data.length = 6) :
    (eui64_from_eui48 e).data =
      [e.data.getD 0 0, e.data.getD 1 0, e.data.getD 2 0, 0, 0,
       e.data.getD 3 0, e.data.getD 4 0, e.data.getD 5 0] := by
  obtain ⟨l⟩ := e
  rcases l with _ | ⟨a, _ | ⟨b, _ | ⟨c, _ | ⟨d, _ | ⟨f, _ | ⟨g, _ | ⟨x, t⟩⟩⟩⟩⟩⟩⟩ <;>
    simp_all [eui64_from_eui48, List.range_succ]

/-- Witness for C1 at the documentation example value `0x4d7e54972eef`. -/
theorem eui48_widening_witness :
    (Eui48.mk [0x4d, 0x7e, 0x54, 0x97, 0x2e, 0xef]).data.length = 6 ∧
    (eui64_from_eui48 (Eui48.mk [0x4d, 0x7e, 0x54, 0x97, 0x2e, 0xef])).data =
      [(Eui48.mk [0x4d, 0x7e, 0x54, 0x97, 0x2e, 0xef]).data.getD 0 0,
       (Eui48.mk [0x4d, 0x7e, 0x54, 0x97, 0x2e, 0xef]).data.getD 1 0,
       (Eui48.mk [0x4d, 0x7e, 0x54, 0x97, 0x2e, 0xef]).data.getD 2 0, 0, 0,
       (Eui48.mk [0x4d, 0x7e, 0x54, 0x97, 0x2e, 0xef]).data.getD 3 0,
       (Eui48.mk [0x4d, 0x7e, 0x54, 0x97, 0x2e, 0xef]).data.getD 4 0,
       (Eui48.mk [0x4d, 0x7e, 0x54, 0x97, 0x2e, 0xef]).data.getD 5 0] :=
  ⟨by decide, eui48_widening (Eui48.mk [0x4d, 0x7e, 0x54, 0x97, 0x2e, 0xef]) (by decide)⟩

/-- Claim C2: converting a 64-bit integer to an identifier and back is the
identity: on all `v < 2^64` through `Eui64`, and on all `v < 2^48` through
`Eui48`. -/
theorem u64_roundtrip :
    (∀ v : Nat, v < 2 ^ 64 → u64_from_eui64 (eui64_from_u64 v) = v) ∧
    (∀ v : Nat, v < 2 ^ 48 → u64_from_eui48 (eui48_from_u64 v) = v) := by
  constructor <;> intro v hv <;>
    simp only [u64_from_eui64, eui64_from_u64, u64_from_eui48, eui48_from_u64,
      List.foldl, List.getD, List.get?, Nat.shiftRight_eq_div_pow,
      Nat.shiftLeft_eq, and_255_eq_mod] <;>
    norm_num <;> omega

/-- Witness for C2 at the documentation example values. -/
theorem u64_roundtrip_witness :
    (5583992946972634863 < 2 ^ 64 ∧
      u64_from_eui64 (eui64_from_u64 5583992946972634863) = 5583992946972634863) ∧
    (85204980412143 < 2 ^ 48 ∧
      u64_from_eui48 (eui48_from_u64 85204980412143) = 85204980412143) :=
  ⟨⟨by norm_num, u64_roundtrip.1 5583992946972634863 (by norm_num)⟩,
   ⟨by norm_num, u64_roundtrip.2 85204980412143 (by norm_num)⟩⟩

/-- Claim C9: for any 64-bit `v`, also above `2^48`, `Eui48::from` keeps the
low 48 bits: converting back yields `v % 2^48`. -/
theorem eui48_truncates (v : Nat) (hv : v < 2 ^ 64) :
    u64_from_eui48 (eui48_from_u64 v) = v % 2 ^ 48 := by
  simp only [u64_from_eui48, eui48_from_u64, List.getD, List.get?,
    Nat.shiftRight_eq_div_pow, Nat.shiftLeft_eq, and_255_eq_mod]
  norm_num
  omega

/-- Witness for C9 at a value at least `2^48`, where truncation is visible. -/
theorem eui48_truncates_witness :
    2 ^ 50 + 85204980412143 < 2 ^ 64 ∧
    u64_from_eui48 (eui48_from_u64 (2 ^ 50 + 85204980412143)) =
      (2 ^ 50 + 85204980412143) % 2 ^ 48 :=
  ⟨by norm_num, eui48_truncates (2 ^ 50 + 85204980412143) (by norm_num)⟩

set_option maxRecDepth 4096 in
/-- Both nibbles of a byte are below 16. -/
theorem byte_nibbles_lt : ∀ b < 256, b >>> 4 < 16 ∧ b &&& 0xf < 16 := by decide

set_option maxRecDepth 4096 in
/-- A byte is recovered from its two nibbles. -/
theorem byte_decode : ∀ b < 256, 16 * (b >>> 4) + (b &&& 0xf) = b := by decide

/-- Indexing `HEX_CHARS` in range lands in `HEX_CHARS`. -/
theorem hex_getD_mem : ∀ i < 16, HEX_CHARS.getD i 0 ∈ HEX_CHARS := by decide

/-- Every hex alphabet byte is ASCII. -/
theorem hex_mem_ascii : ∀ x ∈ HEX_CHARS, x < 128 := by decide

/-- Every hex alphabet byte decodes to a lowercase hex character. -/
theorem hex_mem_lower : ∀ x ∈ HEX_CHARS,
    ('0' ≤ Char.ofNat x ∧ Char.ofNat x ≤ '9') ∨
    ('a' ≤ Char.ofNat x ∧ Char.ofNat x ≤ 'f') := by decide

/-- Decoding the hex character of an in-range nibble gives the nibble back. -/
theorem hex_nibble_roundtrip :
    ∀ i < 16, hex_char_to_nibble (Char.ofNat (HEX_CHARS.getD i 0)) = some i := by decide

/-- Hex alphabet characters are not separators. -/
theorem hex_not_separator :
    ∀ x ∈ HEX_CHARS, is_separator (Char.ofNat x) = false := by decide

/-- The formatter loop never overflows a sufficiently large capacity and
produces exactly the hex rendering appended to the vector so far. -/
theorem to_hex_loop_ok (data : List Nat) :
    ∀ (vec : List Nat) (cap : Nat), vec.length + 2 * data.length ≤ cap →
      to_hex_loop cap vec data = some (vec ++ hex_bytes data) := by
  induction data with
  | nil => intro vec cap _; simp [to_hex_loop, hex_bytes]
  | cons b rest ih =>
    intro vec cap h
    simp only [List.length_cons] at h
    have h1 : vec.length < cap := by omega
    have h2 : (vec ++ [HEX_CHARS.getD (b >>> 4) 0]).length < cap := by
      simp; omega
    simp only [to_hex_loop, vec_push, if_pos h1, if_pos h2]
    rw [ih _ cap (by simp; omega)]
    simp [hex_bytes]

/-- The formatter from the empty vector yields the hex rendering. -/
theorem to_hex_vec_eq (l : List Nat) (cap : Nat) (h : 2 * l.length ≤ cap) :
    to_hex_vec cap l = some (hex_bytes l) := by
  have := to_hex_loop_ok l [] cap (by simpa)
  simpa [to_hex_vec] using this

/-- The hex rendering doubles the length. -/
theorem hex_bytes_length (l : List Nat) : (hex_bytes l).length = 2 * l.length := by
  induction l with
  | nil => simp [hex_bytes]
  | cons b rest ih => simp [hex_bytes, ih]; omega

/-- Every byte of the hex rendering of a byte sequence is a hex alphabet byte. -/
theorem hex_bytes_mem (l : List Nat) (hl : ∀ b ∈ l, b < 256) :
    ∀ x ∈ hex_bytes l, x ∈ HEX_CHARS := by
  induction l with
  | nil => simp [hex_bytes]
  | cons b rest ih =>
    intro x hx
    have hb : b < 256 := hl b (by simp)
    simp only [hex_bytes, List.mem_cons] at hx
    rcases hx with rfl | rfl | hx
    · exact hex_getD_mem _ (byte_nibbles_lt b hb).1
    · exact hex_getD_mem _ (byte_nibbles_lt b hb).2
    · exact ih (fun y hy => hl y (by simp [hy])) x hx

/-- Every character of the hex rendering is a lowercase hex character. -/
theorem hex_chars_lower (l : List Nat) (hl : ∀ b ∈ l, b < 256) :
    ∀ c ∈ hex_chars l,
      ('0' ≤ c ∧ c ≤ '9') ∨ ('a' ≤ c ∧ c ≤ 'f') := by
  intro c hc
  simp only [hex_chars, List.mem_map] at hc
  obtain ⟨x, hx, rfl⟩ := hc
  exact hex_mem_lower x (hex_bytes_mem l hl x hx)

/-- Formatting via `Eui48.to_string` succeeds and produces the hex rendering. -/
theorem to_string_48_eq (e : Eui48) (h : e.data.length = 6) :
    Eui48.to_string e = some (hex_chars e.data) := by
  simp [Eui48.to_string, to_hex_vec_eq e.data 12 (by omega), hex_chars]

/-- Formatting via `Eui64.to_string` succeeds and produces the hex rendering. -/
theorem to_string_64_eq (e : Eui64) (h : e.data.length = 8) :
    Eui64.to_string e = some (hex_chars e.data) := by
  simp [Eui64.to_string, to_hex_vec_eq e.data 16 (by omega), hex_chars]

/-- Claim C3: inputs of any length other than 12/17 (48-bit) or 16/23
(64-bit) are rejected with the length error carrying the exact total input
length; the equality holds for every input of such a length whatever its
characters, so the outcome is decided by the length alone, before any
character is inspected. -/
theorem visit_str_bad_length (v : List Char) :
    (v.length ≠ 12 → v.length ≠ 17 →
      eui48_visit_str v = .error (.invalidLength v.length)) ∧
    (v.length ≠ 16 → v.length ≠ 23 →
      eui64_visit_str v = .error (.invalidLength v.length)) := by
  constructor <;> intro h1 h2
  · rw [eui48_visit_str, if_pos ⟨h1, h2⟩]
  · rw [eui64_visit_str, if_pos ⟨h1, h2⟩]

/-- Witness for C3 at the 10-character input of the src/de.rs length test. -/
theorem visit_str_bad_length_witness :
    (String.toList "4d7e54972e").length ≠ 12 ∧
    (String.toList "4d7e54972e").length ≠ 17 ∧
    eui48_visit_str (String.toList "4d7e54972e") = .error (.invalidLength 10) ∧
    (String.toList "4d7e54972e").length ≠ 16 ∧
    (String.toList "4d7e54972e").length ≠ 23 ∧
    eui64_visit_str (String.toList "4d7e54972e") = .error (.invalidLength 10) :=
  ⟨by decide, by decide,
   (visit_str_bad_length (String.toList "4d7e54972e")).1 (by decide) (by decide),
   by decide, by decide,
   (visit_str_bad_length (String.toList "4d7e54972e")).2 (by decide) (by decide)⟩

/-- Claim C8: the documentation example — `Eui48::from(85204980412143)`
formats as `"4d7e54972eef"` and its widening to `Eui64` formats as
`"4d7e540000972eef"`. -/
theorem doc_example_format :
    Eui48.to_string (eui48_from_u64 85204980412143) =
      some (String.toList "4d7e54972eef") ∧
    Eui64.to_string (eui64_from_eui48 (eui48_from_u64 85204980412143)) =
      some (String.toList "4d7e540000972eef") := by
  decide

/-- Claim C7: `to_string` of either width succeeds and returns exactly
`2 x width` characters: for each byte in order, first the hex character of
the high nibble, then of the low nibble, and every character of the output
is a digit or a lowercase hex letter (so no separator and no uppercase
letter occurs). -/
theorem to_string_canonical :
    (∀ e : Eui48, e.WF → ∃ s, Eui48.to_string e = some s ∧ s.length = 12 ∧
      (∀ i < 6,
        s.getD (2 * i) 'x' = Char.ofNat (HEX_CHARS.getD (e.data.getD i 0 >>> 4) 0) ∧
        s.getD (2 * i + 1) 'x' = Char.ofNat (HEX_CHARS.getD (e.data.getD i 0 &&& 0xf) 0)) ∧
      ∀ c ∈ s, ('0' ≤ c ∧ c ≤ '9') ∨ ('a' ≤ c ∧ c ≤ 'f')) ∧
    (∀ e : Eui64, e.WF → ∃ s, Eui64.to_string e = some s ∧ s.length = 16 ∧
      (∀ i < 8,
        s.getD (2 * i) 'x' = Char.ofNat (HEX_CHARS.getD (e.data.getD i 0 >>> 4) 0) ∧
        s.getD (2 * i + 1) 'x' = Char.ofNat (HEX_CHARS.getD (e.data.getD i 0 &&& 0xf) 0)) ∧
      ∀ c ∈ s, ('0' ≤ c ∧ c ≤ '9') ∨ ('a' ≤ c ∧ c ≤ 'f')) := by
  constructor
  · rintro ⟨l⟩ ⟨hlen, hb⟩
    refine ⟨hex_chars l, to_string_48_eq ⟨l⟩ hlen, ?_, ?_, hex_chars_lower l hb⟩
    · simp [hex_chars, hex_bytes_length, hlen]
    · intro i hi
      rcases l with _ | ⟨a, _ | ⟨b, _ | ⟨c, _ | ⟨d, _ | ⟨f, _ | ⟨g, t⟩⟩⟩⟩⟩⟩ <;>
        simp_all
      · cases t
        · interval_cases i <;> simp [hex_chars, hex_bytes]
        · simp_all
  · rintro ⟨l⟩ ⟨hlen, hb⟩
    refine ⟨hex_chars l, to_string_64_eq ⟨l⟩ hlen, ?_, ?_, hex_chars_lower l hb⟩
    · simp [hex_chars, hex_bytes_length, hlen]
    · intro i hi
      rcases l with _ | ⟨a, _ | ⟨b, _ | ⟨c, _ | ⟨d, _ | ⟨f, _ | ⟨g, _ | ⟨j, _ | ⟨k, t⟩⟩⟩⟩⟩⟩⟩⟩ <;>
        simp_all
      · cases t
        · interval_cases i <;> simp [hex_chars, hex_bytes]
        · simp_all

/-- Witness for C7 at the documentation example value. -/
theorem to_string_canonical_witness :
    (eui48_from_u64 85204980412143).WF ∧
    (∃ s, Eui48.to_string (eui48_from_u64 85204980412143) = some s ∧ s.length = 12 ∧
      (∀ i < 6,
        s.getD (2 * i) 'x' =
          Char.ofNat (HEX_CHARS.getD ((eui48_from_u64 85204980412143).data.getD i 0 >>> 4) 0) ∧
        s.getD (2 * i + 1) 'x' =
          Char.ofNat (HEX_CHARS.getD ((eui48_from_u64 85204980412143).data.getD i 0 &&& 0xf) 0)) ∧
      ∀ c ∈ s, ('0' ≤ c ∧ c ≤ '9') ∨ ('a' ≤ c ∧ c ≤ 'f')) :=
  ⟨by decide, to_string_canonical.1 (eui48_from_u64 85204980412143) (by decide)⟩

/-- Claim C10: the formatter pushes exactly `2 x width` bytes into the
vector of capacity exactly `2 x width` (12 for `Eui48`, 16 for `Eui64`),
so no push fails (no `unwrap` panics), and every pushed byte is an ASCII
hex alphabet byte, so the unchecked UTF-8 conversion only ever sees valid
(ASCII) UTF-8. -/
theorem to_string_pushes_safe :
    (∀ e : Eui48, e.WF → ∃ out, to_hex_vec 12 e.data = some out ∧
      out.length = 12 ∧ ∀ b ∈ out, b ∈ HEX_CHARS ∧ b < 128) ∧
    (∀ e : Eui64, e.WF → ∃ out, to_hex_vec 16 e.data = some out ∧
      out.length = 16 ∧ ∀ b ∈ out, b ∈ HEX_CHARS ∧ b < 128) := by
  constructor <;> rintro e ⟨hlen, hb⟩
  · exact ⟨hex_bytes e.data, to_hex_vec_eq e.data 12 (by omega),
      by simp [hex_bytes_length, hlen],
      fun b hbm => ⟨hex_bytes_mem e.data hb b hbm,
        hex_mem_ascii b (hex_bytes_mem e.data hb b hbm)⟩⟩
  · exact ⟨hex_bytes e.data, to_hex_vec_eq e.data 16 (by omega),
      by simp [hex_bytes_length, hlen],
      fun b hbm => ⟨hex_bytes_mem e.data hb b hbm,
        hex_mem_ascii b (hex_bytes_mem e.data hb b hbm)⟩⟩

/-- Witness for C10 at the documentation example value. -/
theorem to_string_pushes_safe_witness :
    (eui48_from_u64 85204980412143).WF ∧
    (∃ out, to_hex_vec 12 (eui48_from_u64 85204980412143).data = some out ∧
      out.length = 12 ∧ ∀ b ∈ out, b ∈ HEX_CHARS ∧ b < 128) :=
  ⟨by decide, to_string_pushes_safe.1 (eui48_from_u64 85204980412143) (by decide)⟩

/-- Loop step: a hex character with no pending nibble stores the nibble. -/
theorem loop_step_hex1 (total n : Nat) (out : List Nat) (sp : Option Char)
    (cs : Nat) (c : Char) (rest : List Char) (nib : Nat)
    (hs : is_separator c = false) (hn : hex_char_to_nibble c = some nib) :
    string_to_eui_loop total n ⟨out, none, sp, cs⟩ (c :: rest) =
      string_to_eui_loop total n ⟨out, some nib, sp, cs + 1⟩ rest := by
  simp [string_to_eui_loop, hs, hn]

/-- Loop step: a hex character completing a pair writes the byte when the
buffer is not yet full. -/
theorem loop_step_hex2 (total n : Nat) (out : List Nat) (sp : Option Char)
    (cs : Nat) (c : Char) (rest : List Char) (hi nib : Nat)
    (hs : is_separator c = false) (hn : hex_char_to_nibble c = some nib)
    (hlt : out.length < n) :
    string_to_eui_loop total n ⟨out, some hi, sp, cs⟩ (c :: rest) =
      string_to_eui_loop total n ⟨out ++ [16 * hi + nib], none, sp, cs + 1⟩ rest := by
  simp [string_to_eui_loop, hs, hn, hlt]

/-- Loop step: a first separator right after a completed pair establishes
the kind and resets the pair counter. -/
theorem loop_step_sep_first (total n : Nat) (out : List Nat) (hi : Option Nat)
    (cs : Nat) (c : Char) (rest : List Char)
    (hs : is_separator c = true) (hcs : cs = 2) :
    string_to_eui_loop total n ⟨out, hi, none, cs⟩ (c :: rest) =
      string_to_eui_loop total n ⟨out, hi, some c, 0⟩ rest := by
  simp [string_to_eui_loop, hs, hcs]

/-- Loop step: a separator of the established kind right after a completed
pair resets the pair counter. -/
theorem loop_step_sep_same (total n : Nat) (out : List Nat) (hi : Option Nat)
    (cs : Nat) (c : Char) (rest : List Char)
    (hs : is_separator c = true) (hcs : cs = 2) :
    string_to_eui_loop total n ⟨out, hi, some c, cs⟩ (c :: rest) =
      string_to_eui_loop total n ⟨out, hi, some c, 0⟩ rest := by
  simp [string_to_eui_loop, hs, hcs]

/-- Loop end: with the buffer exactly full and no pending nibble the loop
succeeds. -/
theorem loop_nil_ok (total n : Nat) (out : List Nat) (sp : Option Char)
    (cs : Nat) (h : out.length = n) :
    string_to_eui_loop total n ⟨out, none, sp, cs⟩ [] = .ok out := by
  simp [string_to_eui_loop, h]

/-- One unfolding of the hex rendering. -/
theorem hex_chars_cons (b : Nat) (rest : List Nat) :
    hex_chars (b :: rest) =
      Char.ofNat (HEX_CHARS.getD (b >>> 4) 0) ::
        Char.ofNat (HEX_CHARS.getD (b &&& 0xf) 0) :: hex_chars rest := by
  simp [hex_chars, hex_bytes]

/-- The hex rendering as characters doubles the length. -/
theorem hex_chars_length (l : List Nat) : (hex_chars l).length = 2 * l.length := by
  simp [hex_chars, hex_bytes_length]

/-- The parser loop consumes the bare hex rendering of any byte sequence
that exactly fills the remaining buffer, whatever the separator marker and
pair counter. -/
theorem loop_bare_ok (l : List Nat) :
    ∀ (out : List Nat) (sp : Option Char) (cs total n : Nat),
      (∀ b ∈ l, b < 256) → out.length + l.length = n →
      string_to_eui_loop total n ⟨out, none, sp, cs⟩ (hex_chars l) = .ok (out ++ l) := by
  induction l with
  | nil =>
    intro out sp cs total n _ hlen
    have h : out.length = n := by simpa using hlen
    simp [hex_chars, hex_bytes, loop_nil_ok total n out sp cs h]
  | cons b rest ih =>
    intro out sp cs total n hb hlen
    have hb0 : b < 256 := hb b (by simp)
    have h1 : is_separator (Char.ofNat (HEX_CHARS.getD (b >>> 4) 0)) = false :=
      hex_not_separator _ (hex_getD_mem _ (byte_nibbles_lt b hb0).1)
    have h2 : is_separator (Char.ofNat (HEX_CHARS.getD (b &&& 0xf) 0)) = false :=
      hex_not_separator _ (hex_getD_mem _ (byte_nibbles_lt b hb0).2)
    have h3 : hex_char_to_nibble (Char.ofNat (HEX_CHARS.getD (b >>> 4) 0)) =
        some (b >>> 4) := hex_nibble_roundtrip _ (byte_nibbles_lt b hb0).1
    have h4 : hex_char_to_nibble (Char.ofNat (HEX_CHARS.getD (b &&& 0xf) 0)) =
        some (b &&& 0xf) := hex_nibble_roundtrip _ (byte_nibbles_lt b hb0).2
    have h5 : out.length < n := by simp at hlen; omega
    rw [hex_chars_cons, loop_step_hex1 total n out sp cs _ _ _ h1 h3,
      loop_step_hex2 total n out sp (cs + 1) _ _ _ _ h2 h4 h5,
      byte_decode b hb0,
      ih (out ++ [b]) sp (cs + 1 + 1) total n (fun y hy => hb y (by simp [hy]))
        (by simp at hlen ⊢; omega)]
    simp

/-- The length of the separated rendering of a non-empty byte sequence. -/
theorem sep_format_length (s : Char) (l : List Nat) :
    l ≠ [] → (sep_format s l).length = 3 * l.length - 1 := by
  induction l with
  | nil => intro h; simp at h
  | cons b rest ih =>
    intro _
    cases rest with
    | nil => simp [sep_format]
    | cons r rs =>
      have := ih (by simp)
      simp [sep_format] at this ⊢
      omega

/-- The parser loop consumes the separated rendering of any non-empty byte
sequence that exactly fills the remaining buffer, for either a fresh or an
already matching separator kind. -/
theorem loop_sep_ok (l : List Nat) :
    ∀ (s : Char) (out : List Nat) (sp : Option Char) (total n : Nat),
      is_separator s = true → (∀ b ∈ l, b < 256) → l ≠ [] →
      out.length + l.length = n → (sp = none ∨ sp = some s) →
      string_to_eui_loop total n ⟨out, none, sp, 0⟩ (sep_format s l) = .ok (out ++ l) := by
  induction l with
  | nil => intro s out sp total n _ _ h; simp at h
  | cons b rest ih =>
    intro s out sp total n hs hb _ hlen hsp
    have hb0 : b < 256 := hb b (by simp)
    have h1 : is_separator (Char.ofNat (HEX_CHARS.getD (b >>> 4) 0)) = false :=
      hex_not_separator _ (hex_getD_mem _ (byte_nibbles_lt b hb0).1)
    have h2 : is_separator (Char.ofNat (HEX_CHARS.getD (b &&& 0xf) 0)) = false :=
      hex_not_separator _ (hex_getD_mem _ (byte_nibbles_lt b hb0).2)
    have h3 : hex_char_to_nibble (Char.ofNat (HEX_CHARS.getD (b >>> 4) 0)) =
        some (b >>> 4) := hex_nibble_roundtrip _ (byte_nibbles_lt b hb0).1
    have h4 : hex_char_to_nibble (Char.ofNat (HEX_CHARS.getD (b &&& 0xf) 0)) =
        some (b &&& 0xf) := hex_nibble_roundtrip _ (byte_nibbles_lt b hb0).2
    have h5 : out.length < n := by simp at hlen; omega
    cases rest with
    | nil =>
      have hend : (out ++ [b]).length = n := by simp at hlen ⊢; omega
      rw [show sep_format s [b] =
            [Char.ofNat (HEX_CHARS.getD (b >>> 4) 0),
             Char.ofNat (HEX_CHARS.getD (b &&& 0xf) 0)] from rfl,
        loop_step_hex1 total n out sp 0 _ _ _ h1 h3,
        loop_step_hex2 total n out sp 1 _ _ _ _ h2 h4 h5,
        byte_decode b hb0, loop_nil_ok total n (out ++ [b]) sp 2 hend]
    | cons r rs =>
      have hexp : sep_format s (b :: r :: rs) =
          Char.ofNat (HEX_CHARS.getD (b >>> 4) 0) ::
            Char.ofNat (HEX_CHARS.getD (b &&& 0xf) 0) :: s :: sep_format s (r :: rs) :=
        rfl
      rw [hexp, loop_step_hex1 total n out sp 0 _ _ _ h1 h3,
        loop_step_hex2 total n out sp 1 _ _ _ _ h2 h4 h5, byte_decode b hb0]
      have hrec := ih s (out ++ [b]) (some s) total n hs
        (fun y hy => hb y (by simp [hy])) (by simp)
        (by simp at hlen ⊢; omega) (Or.inr rfl)
      rcases hsp with rfl | rfl
      · rw [loop_step_sep_first total n (out ++ [b]) none 2 s _ hs rfl, hrec]
        simp
      · rw [loop_step_sep_same total n (out ++ [b]) none 2 s _ hs rfl, hrec]
        simp

/-- Claim C4: for every well-formed identifier of either width, formatting
succeeds and parsing the canonical bare-hex text back yields the identical
identifier. -/
theorem format_parse_roundtrip :
    (∀ e : Eui48, e.WF →
      ∃ s, Eui48.to_string e = some s ∧ eui48_visit_str s = .ok e) ∧
    (∀ e : Eui64, e.WF →
      ∃ s, Eui64.to_string e = some s ∧ eui64_visit_str s = .ok e) := by
  constructor
  · rintro e ⟨hlen, hb⟩
    refine ⟨hex_chars e.data, to_string_48_eq e hlen, ?_⟩
    have hclen : (hex_chars e.data).length = 12 := by simp [hex_chars_length, hlen]
    have hok : string_to_eui (hex_chars e.data) 6 = .ok e.data := by
      rw [string_to_eui, if_neg (by simp [hclen]), hclen]
      have := loop_bare_ok e.data [] none 0 12 6 hb (by simpa using hlen)
      simpa using this
    simp [eui48_visit_str, hclen, hok]
  · rintro e ⟨hlen, hb⟩
    refine ⟨hex_chars e.data, to_string_64_eq e hlen, ?_⟩
    have hclen : (hex_chars e.data).length = 16 := by simp [hex_chars_length, hlen]
    have hok : string_to_eui (hex_chars e.data) 8 = .ok e.data := by
      rw [string_to_eui, if_neg (by simp [hclen]), hclen]
      have := loop_bare_ok e.data [] none 0 16 8 hb (by simpa using hlen)
      simpa using this
    simp [eui64_visit_str, hclen, hok]

/-- Witness for C4 at the documentation example value. -/
theorem format_parse_roundtrip_witness :
    (eui48_from_u64 85204980412143).WF ∧
    (∃ s, Eui48.to_string (eui48_from_u64 85204980412143) = some s ∧
      eui48_visit_str s = .ok (eui48_from_u64 85204980412143)) :=
  ⟨by decide, format_parse_roundtrip.1 (eui48_from_u64 85204980412143) (by decide)⟩

/-- Separator characters are not hex digits. -/
theorem sep_nibble_none (c : Char) (h : is_separator c = true) :
    hex_char_to_nibble c = none := by
  simp only [is_separator, Bool.or_eq_true, decide_eq_true_eq] at h
  rcases h with rfl | rfl <;> decide

/-- If the parser loop succeeds with an established separator kind, every
separator character of the remaining input is of that kind. -/
theorem loop_ok_sep_matches (v : List Char) :
    ∀ (st : ParserState) (total n : Nat) (bs : List Nat) (s : Char),
      string_to_eui_loop total n st v = .ok bs → st.sep = some s →
      ∀ c ∈ v, is_separator c = true → c = s := by
  induction v with
  | nil => intro st total n bs s _ _ c hc; simp at hc
  | cons c0 rest ih =>
    intro st total n bs s hok hsep c hc hcsep
    by_cases h0 : is_separator c0 = true
    · by_cases hcs : c0 = s
      · subst hcs
        by_cases h2 : st.since_sep = 2
        · simp [string_to_eui_loop, h0, hsep, h2] at hok
          rcases List.mem_cons.mp hc with rfl | hcr
          · rfl
          · exact ih _ total n bs c0 hok (by simp [hsep]) c hcr hcsep
        · simp [string_to_eui_loop, h0, hsep, h2] at hok
      · simp [string_to_eui_loop, h0, hsep, hcs] at hok
    · have h0' : is_separator c0 = false := by simpa using h0
      rcases List.mem_cons.mp hc with rfl | hcr
      · exact absurd hcsep (by simp [h0'])
      · cases hn : hex_char_to_nibble c0 with
        | none => simp [string_to_eui_loop, h0', hn] at hok
        | some nib =>
          cases hhi : st.hi with
          | none =>
            simp [string_to_eui_loop, h0', hn, hhi] at hok
            exact ih _ total n bs s hok (by simp [hsep]) c hcr hcsep
          | some hi =>
            by_cases h6 : st.out.length < n
            · simp [string_to_eui_loop, h0', hn, hhi, h6] at hok
              exact ih _ total n bs s hok (by simp [hsep]) c hcr hcsep
            · simp [string_to_eui_loop, h0', hn, hhi, h6] at hok

/-- If the parser loop succeeds before any separator kind is established,
the input cannot contain both a colon and a hyphen. -/
theorem loop_ok_no_mixed (v : List Char) :
    ∀ (st : ParserState) (total n : Nat) (bs : List Nat),
      string_to_eui_loop total n st v = .ok bs → st.sep = none →
      ':' ∈ v → '-' ∈ v → False := by
  induction v with
  | nil => intro st total n bs _ _ hc; simp at hc
  | cons c0 rest ih =>
    intro st total n bs hok hsep hc hd
    have hone : (':' : Char) ≠ '-' := by decide
    by_cases h0 : is_separator c0 = true
    · by_cases h2 : st.since_sep = 2
      · simp [string_to_eui_loop, h0, hsep, h2] at hok
        rcases List.mem_cons.mp hc with hc0 | hcr
        · rcases List.mem_cons.mp hd with hd0 | hdr
          · exact hone (hc0.trans hd0.symm)
          · have hmd := loop_ok_sep_matches rest _ total n bs c0 hok (by simp)
              '-' hdr (by decide)
            exact hone (hc0.trans hmd.symm)
        · have hmc := loop_ok_sep_matches rest _ total n bs c0 hok (by simp)
            ':' hcr (by decide)
          rcases List.mem_cons.mp hd with hd0 | hdr
          · exact hone (hmc.trans hd0.symm)
          · have hmd := loop_ok_sep_matches rest _ total n bs c0 hok (by simp)
              '-' hdr (by decide)
            exact hone (hmc.trans hmd.symm)
      · simp [string_to_eui_loop, h0, hsep, h2] at hok
    · have h0' : is_separator c0 = false := by simpa using h0
      have hc0 : (':' : Char) ≠ c0 := by rintro rfl; simp [is_separator] at h0'
      have hd0 : ('-' : Char) ≠ c0 := by rintro rfl; simp [is_separator] at h0'
      have hcr : ':' ∈ rest := by
        rcases List.mem_cons.mp hc with h | h
        · exact absurd h hc0
        · exact h
      have hdr : '-' ∈ rest := by
        rcases List.mem_cons.mp hd with h | h
        · exact absurd h hd0
        · exact h
      cases hn : hex_char_to_nibble c0 with
      | none => simp [string_to_eui_loop, h0', hn] at hok
      | some nib =>
        cases hhi : st.hi with
        | none =>
          simp [string_to_eui_loop, h0', hn, hhi] at hok
          exact ih _ total n bs hok (by simp [hsep]) hcr hdr
        | some hi =>
          by_cases h6 : st.out.length < n
          · simp [string_to_eui_loop, h0', hn, hhi, h6] at hok
            exact ih _ total n bs hok (by simp [hsep]) hcr hdr
          · simp [string_to_eui_loop, h0', hn, hhi, h6] at hok

/-- A successful parse never comes from an input holding both separators. -/
theorem string_to_eui_ok_no_mixed (v : List Char) (n : Nat) (bs : List Nat)
    (hok : string_to_eui v n = .ok bs) : ¬(':' ∈ v ∧ '-' ∈ v) := by
  rintro ⟨hc, hd⟩
  rw [string_to_eui] at hok
  by_cases h : v.length ≠ 2 * n ∧ v.length ≠ 3 * n - 1
  · rw [if_pos h] at hok; cases hok
  · rw [if_neg h] at hok
    exact loop_ok_no_mixed v ⟨[], none, none, 0⟩ v.length n bs hok rfl hc hd

/-- A successful 48-bit visitor run reflects a successful core parse. -/
theorem eui48_visit_ok_inv (v : List Char) (e : Eui48)
    (h : eui48_visit_str v = .ok e) : string_to_eui v 6 = .ok e.data := by
  rw [eui48_visit_str] at h
  by_cases hl : v.length ≠ 12 ∧ v.length ≠ 17
  · rw [if_pos hl] at h; cases h
  · rw [if_neg hl] at h
    cases hst : string_to_eui v 6 with
    | error err => rw [hst] at h; cases err <;> simp at h
    | ok bs =>
      rw [hst] at h
      simp at h
      subst h
      rfl

/-- A successful 64-bit visitor run reflects a successful core parse. -/
theorem eui64_visit_ok_inv (v : List Char) (e : Eui64)
    (h : eui64_visit_str v = .ok e) : string_to_eui v 8 = .ok e.data := by
  rw [eui64_visit_str] at h
  by_cases hl : v.length ≠ 16 ∧ v.length ≠ 23
  · rw [if_pos hl] at h; cases h
  · rw [if_neg hl] at h
    cases hst : string_to_eui v 8 with
    | error err => rw [hst] at h; cases err <;> simp at h
    | ok bs =>
      rw [hst] at h
      simp at h
      subst h
      rfl

/-- Parsing the separated rendering of a well-formed `Eui48` succeeds for
any recognized separator. -/
theorem visit48_sep_roundtrip (e : Eui48) (s : Char)
    (hsep : is_separator s = true) (hWF : e.WF) :
    eui48_visit_str (sep_format s e.data) = .ok e := by
  obtain ⟨hlen, hb⟩ := hWF
  have hne : e.data ≠ [] := by intro h; rw [h] at hlen; cases hlen
  have hlen17 : (sep_format s e.data).length = 17 := by
    rw [sep_format_length s e.data hne, hlen]
  have hok : string_to_eui (sep_format s e.data) 6 = .ok e.data := by
    rw [string_to_eui, if_neg (by simp [hlen17]), hlen17]
    have := loop_sep_ok e.data s [] none 17 6 hsep hb hne
      (by simpa using hlen) (Or.inl rfl)
    simpa using this
  simp [eui48_visit_str, hlen17, hok]

/-- Parsing the separated rendering of a well-formed `Eui64` succeeds for
any recognized separator. -/
theorem visit64_sep_roundtrip (e : Eui64) (s : Char)
    (hsep : is_separator s = true) (hWF : e.WF) :
    eui64_visit_str (sep_format s e.data) = .ok e := by
  obtain ⟨hlen, hb⟩ := hWF
  have hne : e.data ≠ [] := by intro h; rw [h] at hlen; cases hlen
  have hlen23 : (sep_format s e.data).length = 23 := by
    rw [sep_format_length s e.data hne, hlen]
  have hok : string_to_eui (sep_format s e.data) 8 = .ok e.data := by
    rw [string_to_eui, if_neg (by simp [hlen23]), hlen23]
    have := loop_sep_ok e.data s [] none 23 8 hsep hb hne
      (by simpa using hlen) (Or.inl rfl)
    simpa using this
  simp [eui64_visit_str, hlen23, hok]

/-- Counterexample to C5 as stated: an input holding both separator kinds
whose parse fails with the separator-place error, not the mixed-separator
error — the leading colon is rejected as misplaced before the hyphen is
ever reached, so the reported error depends on the positions involved. -/
theorem mixed_separator_positions_matter :
    ':' ∈ String.toList ":4d7e:54:97:2e-ef" ∧
    '-' ∈ String.toList ":4d7e:54:97:2e-ef" ∧
    eui48_visit_str (String.toList ":4d7e:54:97:2e-ef") =
      .error .invalidSeparatorPlace ∧
    DeError.invalidSeparatorPlace ≠ DeError.onlyOneSeparatorTypeExpected := by
  decide

/-- Claim C5, amended: colon and hyphen are each independently accepted as
the separator of a full separated-form input; every input holding both
kinds fails to parse, and when the mixing is the first violation met in the
left-to-right scan — a correctly placed separator of a second kind — the
failure is the mixed-separator error (at other positions an earlier
placement or character error may be reported instead). -/
theorem separator_kinds :
    ((∀ e : Eui48, e.WF →
        eui48_visit_str (sep_format ':' e.data) = .ok e ∧
        eui48_visit_str (sep_format '-' e.data) = .ok e) ∧
     (∀ e : Eui64, e.WF →
        eui64_visit_str (sep_format ':' e.data) = .ok e ∧
        eui64_visit_str (sep_format '-' e.data) = .ok e)) ∧
    ((∀ (v : List Char) (e : Eui48),
        ':' ∈ v → '-' ∈ v → eui48_visit_str v ≠ .ok e) ∧
     (∀ (v : List Char) (e : Eui64),
        ':' ∈ v → '-' ∈ v → eui64_visit_str v ≠ .ok e)) ∧
    (eui48_visit_str (String.toList "4d:7e:54-97:2e:ef") =
        .error .onlyOneSeparatorTypeExpected ∧
     eui64_visit_str (String.toList "4d:7e-54:00:00:97:2e-ef") =
        .error .onlyOneSeparatorTypeExpected) := by
  refine ⟨⟨?_, ?_⟩, ⟨?_, ?_⟩, by decide, by decide⟩
  · exact fun e he => ⟨visit48_sep_roundtrip e ':' (by decide) he,
      visit48_sep_roundtrip e '-' (by decide) he⟩
  · exact fun e he => ⟨visit64_sep_roundtrip e ':' (by decide) he,
      visit64_sep_roundtrip e '-' (by decide) he⟩
  · intro v e hc hd hok
    exact string_to_eui_ok_no_mixed v 6 e.data (eui48_visit_ok_inv v e hok) ⟨hc, hd⟩
  · intro v e hc hd hok
    exact string_to_eui_ok_no_mixed v 8 e.data (eui64_visit_ok_inv v e hok) ⟨hc, hd⟩

/-- Witness for the amended C5 at the documentation example value. -/
theorem separator_kinds_witness :
    (Eui48.mk [0x4d, 0x7e, 0x54, 0x97, 0x2e, 0xef]).WF ∧
    (eui48_visit_str (sep_format ':' (Eui48.mk [0x4d, 0x7e, 0x54, 0x97, 0x2e, 0xef]).data) =
        .ok (Eui48.mk [0x4d, 0x7e, 0x54, 0x97, 0x2e, 0xef]) ∧
     eui48_visit_str (sep_format '-' (Eui48.mk [0x4d, 0x7e, 0x54, 0x97, 0x2e, 0xef]).data) =
        .ok (Eui48.mk [0x4d, 0x7e, 0x54, 0x97, 0x2e, 0xef])) :=
  ⟨by decide, separator_kinds.1.1 (Eui48.mk [0x4d, 0x7e, 0x54, 0x97, 0x2e, 0xef]) (by decide)⟩

/-- Case variants decode to the same nibble, agree on separator-hood, and
are equal outright when they are not hex digits. -/
theorem case_variants_spec (c c' : Char) (h : case_variants c c' = true) :
    hex_char_to_nibble c = hex_char_to_nibble c' ∧
    (hex_char_to_nibble c = none → c = c') ∧
    is_separator c = is_separator c' := by
  simp only [case_variants, Bool.or_eq_true, Bool.and_eq_true,
    decide_eq_true_eq] at h
  rcases h with rfl | h | h | h | h | h | h | h | h | h | h | h | h
  · exact ⟨rfl, fun _ => rfl, rfl⟩
  all_goals obtain ⟨rfl, rfl⟩ := h
  all_goals exact ⟨by decide, by decide, by decide⟩

/-- Case-variant strings have equal length. -/
theorem case_variants_list_length (v : List Char) :
    ∀ w, case_variants_list v w = true → v.length = w.length := by
  induction v with
  | nil =>
    intro w h
    cases w with
    | nil => rfl
    | cons c w => simp [case_variants_list] at h
  | cons c v ih =>
    intro w h
    cases w with
    | nil => simp [case_variants_list] at h
    | cons c' w =>
      have h' := (Bool.and_eq_true _ _).mp (by simpa [case_variants_list] using h)
      simp [ih w h'.2]

/-- The parser loop is invariant under changing the case of hex digits in
its input, from any state. -/
theorem loop_case_congr : ∀ v w : List Char, case_variants_list v w = true →
    ∀ (st : ParserState) (total n : Nat),
      string_to_eui_loop total n st v = string_to_eui_loop total n st w := by
  intro v
  induction v with
  | nil =>
    intro w h st total n
    cases w with
    | nil => rfl
    | cons c w => simp [case_variants_list] at h
  | cons c0 v ih =>
    intro w h st total n
    cases w with
    | nil => simp [case_variants_list] at h
    | cons c0' w =>
      have h' := (Bool.and_eq_true _ _).mp (by simpa [case_variants_list] using h)
      obtain ⟨hcv, hrest⟩ := h'
      obtain ⟨hnib, hnone, hsepeq⟩ := case_variants_spec c0 c0' hcv
      have ihvw := ih w hrest
      by_cases h0 : is_separator c0 = true
      · have hceq : c0 = c0' := hnone (sep_nibble_none c0 h0)
        subst hceq
        cases hsp : st.sep with
        | none =>
          by_cases h2 : st.since_sep = 2 <;>
            simp [string_to_eui_loop, h0, hsp, h2, ihvw]
        | some s =>
          by_cases hcs : c0 = s
          · by_cases h2 : st.since_sep = 2 <;>
              simp [string_to_eui_loop, h0, hsp, hcs, h2, ihvw]
          · simp [string_to_eui_loop, h0, hsp, hcs]
      · have h0' : is_separator c0 = false := by simpa using h0
        have h0'' : is_separator c0' = false := by rw [← hsepeq]; exact h0'
        cases hn : hex_char_to_nibble c0 with
        | none =>
          have hceq : c0 = c0' := hnone hn
          subst hceq
          simp [string_to_eui_loop, h0', hn]
        | some nib =>
          have hn' : hex_char_to_nibble c0' = some nib := by rw [← hnib]; exact hn
          cases hhi : st.hi with
          | none => simp [string_to_eui_loop, h0', h0'', hn, hn', hhi, ihvw]
          | some hi =>
            by_cases h6 : st.out.length < n <;>
              simp [string_to_eui_loop, h0', h0'', hn, hn', hhi, h6, ihvw]

/-- Claim C6: two inputs that differ only in the case of their hex digits
parse to the same outcome for both widths — the same bytes on success and
the same error on failure. -/
theorem case_insensitive_parse (v w : List Char)
    (h : case_variants_list v w = true) :
    eui48_visit_str v = eui48_visit_str w ∧
    eui64_visit_str v = eui64_visit_str w := by
  have hlen := case_variants_list_length v w h
  have hS : ∀ m, string_to_eui v m = string_to_eui w m := by
    intro m
    rw [string_to_eui, string_to_eui, hlen]
    by_cases hc : w.length ≠ 2 * m ∧ w.length ≠ 3 * m - 1
    · rw [if_pos hc, if_pos hc]
    · rw [if_neg hc, if_neg hc,
        loop_case_congr v w h ⟨[], none, none, 0⟩ w.length m]
  constructor
  · rw [eui48_visit_str, eui48_visit_str, hlen, hS 6]
  · rw [eui64_visit_str, eui64_visit_str, hlen, hS 8]

/-- Witness for C6 at the uppercase/lowercase pair from the src/de.rs
tests. -/
theorem case_insensitive_parse_witness :
    case_variants_list (String.toList "4D7E54972EEF") (String.toList "4d7e54972eef") = true ∧
    (eui48_visit_str (String.toList "4D7E54972EEF") =
        eui48_visit_str (String.toList "4d7e54972eef") ∧
     eui64_visit_str (String.toList "4D7E54972EEF") =
        eui64_visit_str (String.toList "4d7e54972eef")) :=
  ⟨by decide, case_insensitive_parse (String.toList "4D7E54972EEF")
    (String.toList "4d7e54972eef") (by decide)⟩

end EuiNoStd
